import Mathlib

/-!
Shallow embedding of plastid genomics genome_array.py.

Conventions of the embedding:
- numeric values are modelled as rationals;
- numpy buffers are modelled as lists of rationals; numpy slice reads clamp
  to the buffer length, slice writes of a vector require the exact slice
  length, numpy resize keeps the prefix and pads with zeros;
- python dicts are modelled as insertion-ordered association lists;
- python exceptions are modelled with Except String;
- warnings are modelled as explicit warning lists where a claim needs them.
-/

/-- MIN_CHR_SIZE: 10 Mb minimum size for unspecified chromosomes. -/
def MIN_CHR_SIZE : Nat := 10000000

/-- GenomicSegment: chromosome, half-open start and end, strand.  The field
stopp models the python attribute named end (a Lean keyword).  Coordinates
are integers since the mapping functions can produce negative positions. -/
structure GenomicSegment where
  chrom : String
  start : Int
  stopp : Int
  strand : String
deriving DecidableEq, Repr

/-- Length of a segment: end minus start (clamped at zero). -/
def GenomicSegment.length (s : GenomicSegment) : Nat := (s.stopp - s.start).toNat

/-- An ungapped alignment: a SegmentChain with a single segment, as consumed
by the mapping functions.  Its length equals the spanning segment length. -/
structure Feature where
  spanningSegment : GenomicSegment
deriving DecidableEq, Repr

/-- Alignment length, the python feature.length, which for an ungapped
alignment equals the spanning segment length (also used as len(span)). -/
def Feature.length (f : Feature) : Nat := f.spanningSegment.length

/-- Keyword arguments consumed by the mapping functions.  A field holding
none models an omitted keyword.  The python key offset holds an integer for
the fixed-offset rules and a length-to-offset dict (with an optional
default entry) for variable fiveprime mapping; the two uses are modelled by
the separate fields offset and offsetDict. -/
structure MapKwargs where
  value : Option ℚ := none
  offset : Option Int := none
  nibble : Option Int := none
  offsetDict : Option (List (Nat × Int) × Option Int) := none
deriving DecidableEq, Repr

/-- Warnings the mapping functions can emit via warnings.warn. -/
inductive MapWarning where
  | tooShortNibble
  | offsetTooLong
  | noOffset
deriving DecidableEq, Repr

/-- Lookup in an association list with Nat keys (the length-to-offset dict). -/
def lookupNat (table : List (Nat × Int)) (k : Nat) : Option Int :=
  (table.find? (fun p => p.1 = k)).map (fun p => p.2)

/-- center_map: removes nibble bases from each side, apportions value over
the remaining positions.  Reads kwargs nibble with a mandatory dict access
(a missing nibble key raises KeyError), offset and value with defaults 0
and 1.0. -/
def center_map (feature : Feature) (kw : MapKwargs) :
    Except String (List MapWarning × List (GenomicSegment × ℚ)) :=
  match kw.nibble with
  | none => Except.error "KeyError: nibble"
  | some nibble =>
    let read_length : Int := feature.length
    if read_length ≤ 2 * nibble then
      Except.ok ([MapWarning.tooShortNibble], [])
    else
      let span := feature.spanningSegment
      let strand := span.strand
      let chrom := span.chrom
      let offset := kw.offset.getD 0
      let value := kw.value.getD 1
      let sign : Int := if strand = "-" then -1 else 1
      let start := span.start + nibble + sign * offset
      let stopp := span.stopp - nibble + sign * offset
      let seg : GenomicSegment := ⟨chrom, start, stopp, strand⟩
      let frac : ℚ := value / (seg.length : ℚ)
      Except.ok ([], [(seg, frac)])

/-- five_prime_map: maps a read at kwargs offset (default 0) from its
fiveprime end; if offset exceeds the read length the read is discarded
with a warning.  Value defaults to 1.0. -/
def five_prime_map (feature : Feature) (kw : MapKwargs) :
    Except String (List MapWarning × List (GenomicSegment × ℚ)) :=
  let offset := kw.offset.getD 0
  let read_length : Int := feature.length
  if offset > read_length then
    Except.ok ([MapWarning.offsetTooLong], [])
  else
    let value := kw.value.getD 1
    let span := feature.spanningSegment
    let strand := span.strand
    let start := if strand = "+" ∨ strand = "." then span.start + offset
                 else span.stopp - 1 - offset
    Except.ok ([], [(⟨span.chrom, start, start + 1, strand⟩, value)])

/-- three_prime_map: maps a read at kwargs offset (default 0) from its
threeprime end; if offset exceeds the read length the read is discarded
with a warning.  Value defaults to 1.0. -/
def three_prime_map (feature : Feature) (kw : MapKwargs) :
    Except String (List MapWarning × List (GenomicSegment × ℚ)) :=
  let offset := kw.offset.getD 0
  let read_length : Int := feature.length
  if offset > read_length then
    Except.ok ([MapWarning.offsetTooLong], [])
  else
    let value := kw.value.getD 1
    let span := feature.spanningSegment
    let strand := span.strand
    let start := if strand = "+" ∨ strand = "." then span.stopp - 1 - offset
                 else span.start + offset
    Except.ok ([], [(⟨span.chrom, start, start + 1, strand⟩, value)])

/-- variable_five_prime_map: the offset is looked up in the required kwargs
offset dict keyed by the spanning segment length, falling back to the dict
default entry; with no offset found the read is discarded with a warning;
with an offset at least the read length a warning is emitted but the
position is still returned. -/
def variable_five_prime_map (feature : Feature) (kw : MapKwargs) :
    Except String (List MapWarning × List (GenomicSegment × ℚ)) :=
  match kw.offsetDict with
  | none => Except.error "KeyError: offset"
  | some (table, dflt) =>
    let span := feature.spanningSegment
    let strand := span.strand
    let value := kw.value.getD 1
    let offset? := match lookupNat table span.length with
                   | some o => some o
                   | none => dflt
    let feature_length : Int := feature.length
    match offset? with
    | none => Except.ok ([MapWarning.noOffset], [])
    | some offset =>
      let warns := if offset ≥ feature_length then [MapWarning.offsetTooLong] else []
      let start := if strand = "+" ∨ strand = "." then span.start + offset
                   else span.stopp - 1 - offset
      Except.ok (warns, [(⟨span.chrom, start, start + 1, strand⟩, value)])

/-- Buffer: one numpy float array holding one chromosome strand. -/
abbrev Buffer := List ℚ

/-- Strand-to-buffer dict of one chromosome. -/
abbrev StrandDict := List (String × Buffer)

/-- Chromosome dict of a mutable genome array. -/
abbrev ChromDict := List (String × StrandDict)

/-- Dict lookup on a string-keyed association list. -/
def alookup (d : List (String × α)) (k : String) : Option α :=
  (d.find? (fun p => p.1 = k)).map (fun p => p.2)

/-- Dict assignment: overwrite an existing key in place, else append
(python dicts keep insertion order). -/
def aset (d : List (String × α)) (k : String) (v : α) : List (String × α) :=
  if d.any (fun p => p.1 = k) then
    d.map (fun p => if p.1 = k then (k, v) else p)
  else d ++ [(k, v)]

/-- Slice read buf[start:stopp]: numpy slicing clamps to the buffer length. -/
def readSlice (buf : Buffer) (start stopp : Nat) : Buffer :=
  (buf.drop start).take (stopp - start)

/-- Slice write of a vector whose length matches the slice. -/
def writeVec (buf : Buffer) (start : Nat) (v : List ℚ) : Buffer :=
  buf.take start ++ v ++ buf.drop (start + v.length)

/-- Slice write of a scalar buf[start:stopp] = q: numpy broadcasts the
scalar over the clamped slice. -/
def writeScalar (buf : Buffer) (start stopp : Nat) (q : ℚ) : Buffer :=
  writeVec buf (min start buf.length)
    (List.replicate (min stopp buf.length - min start buf.length) q)

/-- Numpy ndarray.resize: keep the leading data, pad with zeros (shrinks by
truncation when the new size is smaller). -/
def resizeBuf (buf : Buffer) (n : Nat) : Buffer :=
  buf.take n ++ List.replicate (n - buf.length) 0

/-- Indices of nonzero positions of a buffer, ascending (numpy nonzero). -/
def nonzeroIdx (buf : Buffer) : List Nat :=
  (List.range buf.length).filter (fun i => buf.getD i 0 ≠ 0)

/-- Mutable dense GenomeArray state: the chroms dict maps a chromosome to a
per-strand buffer dict; sumCache is the lazily reset sum (python _sum,
none when invalidated); normalize is the reads-per-million view flag. -/
structure GenomeArray where
  chroms : ChromDict
  strands : List String
  minChrSize : Nat
  sumCache : Option ℚ
  normalize : Bool
deriving DecidableEq, Repr

/-- GenomeArray constructor from a chromosome-length dict: every strand of
every listed chromosome gets a zero buffer of the stated length. -/
def GenomeArray.create (chrLengths : List (String × Nat)) (strands : List String)
    (minChrSize : Nat) : GenomeArray :=
  { chroms := chrLengths.map (fun p => (p.1, strands.map (fun s => (s, List.replicate p.2 (0 : ℚ))))),
    strands := strands,
    minChrSize := minChrSize,
    sumCache := none,
    normalize := false }

/-- Chromosome names (python keys and chroms). -/
def GenomeArray.keys (g : GenomeArray) : List String := g.chroms.map (fun p => p.1)

/-- Buffer stored for a chromosome and strand (empty when absent). -/
def bufferOf (g : GenomeArray) (chrom strand : String) : Buffer :=
  ((alookup g.chroms chrom).bind (fun sd => alookup sd strand)).getD []

/-- Per-chromosome length: max buffer length across the strands. -/
def GenomeArray.lengths (g : GenomeArray) : List (String × Nat) :=
  g.chroms.map (fun p =>
    (p.1, (g.strands.map (fun s => ((alookup p.2 s).getD []).length)).foldr max 0))

/-- Total of all positions of all chromosome strands (python reset_sum). -/
def GenomeArray.totalSum (g : GenomeArray) : ℚ :=
  (g.chroms.map (fun p => (g.strands.map (fun s => ((alookup p.2 s).getD []).sum)).sum)).sum

/-- Value returned by sum(): the cached sum, recomputed lazily when the
cache was invalidated.  The true unnormalized sum is always reported. -/
def GenomeArray.sumVal (g : GenomeArray) : ℚ :=
  g.sumCache.getD g.totalSum

/-- set_normalize: toggle the reads-per-million view flag. -/
def GenomeArray.setNormalize (g : GenomeArray) (value : Bool) : GenomeArray :=
  { g with normalize := value }

/-- set_sum: override the cached sum. -/
def GenomeArray.setSum (g : GenomeArray) (val : ℚ) : GenomeArray :=
  { g with sumCache := some val }

/-- Resize every strand buffer of one chromosome dict to newSize
(the python loop over self.strands with deepcopy plus resize). -/
def resizeStrands (strands : List String) (sd : StrandDict) (newSize : Nat) : StrandDict :=
  strands.foldl (fun d s => aset d s (resizeBuf ((alookup d s).getD []) newSize)) sd

/-- Shared body of the try/except blocks of getitem and setitem: when the
addressed buffer is too short, grow all strands of the chromosome to
max(len + 10000, end + 10000); when the chromosome is missing, create all
strands at minChrSize after asserting the strand is known; a missing strand
on an existing chromosome surfaces as the uncaught KeyError of the python
slice line. -/
def GenomeArray.ensureFits (g : GenomeArray) (chrom strand : String) (stopp : Int) :
    Except String GenomeArray :=
  match alookup g.chroms chrom with
  | some sd =>
    match alookup sd strand with
    | some buf =>
      if stopp < (buf.length : Int) then Except.ok g
      else
        let newSize := max (buf.length + 10000) (stopp.toNat + 10000)
        Except.ok { g with chroms := aset g.chroms chrom (resizeStrands g.strands sd newSize) }
    | none =>
      if strand ∈ g.strands then Except.error "KeyError: strand"
      else Except.error "AssertionError: strand not in strands"
  | none =>
    if strand ∈ g.strands then
      let fresh := g.strands.map (fun s => (s, List.replicate g.minChrSize (0 : ℚ)))
      Except.ok { g with chroms := aset g.chroms chrom fresh }
    else Except.error "AssertionError: strand not in strands"

/-- getitem on a GenomicSegment: grow or create the chromosome if needed,
slice, normalize when the flag is set (the sum call fills the cache), and
reverse for minus-strand segments when roiOrder is true.  Returns the
fetched vector together with the mutated array. -/
def GenomeArray.getitem (g : GenomeArray) (roi : GenomicSegment) (roiOrder : Bool) :
    Except String (List ℚ × GenomeArray) := do
  let g1 ← g.ensureFits roi.chrom roi.strand roi.stopp
  let buf := bufferOf g1 roi.chrom roi.strand
  let vals := readSlice buf roi.start.toNat roi.stopp.toNat
  let (vals, g2) :=
    if g1.normalize then
      (vals.map (fun v => 1000000 * v / g1.sumVal), { g1 with sumCache := some g1.sumVal })
    else (vals, g1)
  let vals := if roiOrder = true ∧ roi.strand = "-" then vals.reverse else vals
  Except.ok (vals, g2)

/-- Scalar or vector right-hand side of setitem. -/
inductive GValue where
  | scalar (q : ℚ)
  | vector (v : List ℚ)
deriving DecidableEq, Repr

/-- Reversal of a setitem value: only vectors reverse (numpy ndarray test). -/
def GValue.rev : GValue → GValue
  | GValue.scalar q => GValue.scalar q
  | GValue.vector v => GValue.vector v.reverse

/-- setitem on a GenomicSegment: invalidate the cached sum, reverse a
vector value for minus-strand segments when roiOrder is true, temporarily
clear the normalize flag (with a warning when it was set), grow or create
the chromosome as in getitem, write the slice, restore the flag.  The
SegmentChain recursion of the python method is outside this embedding,
which covers single segments. -/
def GenomeArray.setitem (g : GenomeArray) (seg : GenomicSegment) (val : GValue)
    (roiOrder : Bool) : Except String GenomeArray := do
  let g := { g with sumCache := none }
  let oldNormalize := g.normalize
  let g := g.setNormalize false
  let val := if seg.strand = "-" ∧ roiOrder = true then val.rev else val
  let g1 ← g.ensureFits seg.chrom seg.strand seg.stopp
  let sd := (alookup g1.chroms seg.chrom).getD []
  let buf := (alookup sd seg.strand).getD []
  let start := seg.start.toNat
  let stopp := seg.stopp.toNat
  let newBuf ← match val with
    | GValue.scalar q => Except.ok (writeScalar buf start stopp q)
    | GValue.vector v =>
      if v.length = min stopp buf.length - min start buf.length then
        Except.ok (writeVec buf (min start buf.length) v)
      else Except.error "ValueError: shape mismatch"
  let g2 := { g1 with chroms := aset g1.chroms seg.chrom (aset sd seg.strand newBuf) }
  Except.ok (g2.setNormalize oldNormalize)

/-- like: a fresh all-zero GenomeArray with the dimensions of another. -/
def GenomeArray.like (other : GenomeArray) : GenomeArray :=
  GenomeArray.create other.lengths other.strands MIN_CHR_SIZE

/-- Value part of getitem, for contexts that only use the fetched vector
(the python expression self[seg]; cache refreshes that getitem may perform
do not change any fetched value). -/
def GenomeArray.getValsD (g : GenomeArray) (roi : GenomicSegment) : List ℚ :=
  ((g.getitem roi true).toOption.map (fun p => p.1)).getD []

/-- Nonzero-position vector used by eq: the nonzero dict of an array with a
per-strand default of an empty vector for missing chromosomes or strands. -/
def nzVecOf (g : GenomeArray) (chrom strand : String) : List Nat :=
  if g.keys.contains chrom ∧ g.strands.contains strand then
    nonzeroIdx (bufferOf g chrom strand)
  else []

/-- eq with tolerance tol (python eq, default tol 1e-10): over every
chromosome and strand of either array, the nonzero index vectors must
match, and the fetched difference over the segment from the least to the
greatest nonzero index (half-open, thus excluding the greatest index) must
be at most tol (a one-sided comparison in the source). -/
def GenomeArray.eqTol (a b : GenomeArray) (tol : ℚ) : Bool :=
  ((a.keys ++ b.keys).dedup).all (fun chrom =>
    ((a.strands ++ b.strands).dedup).all (fun strand =>
      let sv := nzVecOf a chrom strand
      let ov := nzVecOf b chrom strand
      if sv.length ≠ ov.length then false
      else if decide (sv ≠ ov) then false
      else if sv.length > 0 then
        let seg : GenomicSegment := ⟨chrom, (sv.headD 0 : Int), (sv.getLastD 0 : Int), strand⟩
        (List.zipWith (fun x y => decide (x - y ≤ tol)) (a.getValsD seg) (b.getValsD seg)).all id
      else true))

/-- Dict equality on the chromosome-length dicts (python dict comparison). -/
def dictEqNat (d1 d2 : List (String × Nat)) : Bool :=
  d1.all (fun p => alookup d2 p.1 == some p.2) && d2.all (fun p => alookup d1 p.1 == some p.2)

/-- has_same_dimensions: same chromosome set, same strands tuple, same
length dict. -/
def sameDims (a b : GenomeArray) : Bool :=
  a.keys.all (fun k => b.keys.contains k) && b.keys.all (fun k => a.keys.contains k)
    && decide (a.strands = b.strands) && dictEqNat a.lengths b.lengths

/-- Second operand of apply_operation: another array or a scalar. -/
inductive Operand where
  | array (g : GenomeArray)
  | scalar (q : ℚ)
deriving DecidableEq, Repr

/-- Outcome of apply_operation: the fresh result array together with
the in-place mutated states of both operands. -/
structure ApplyResult where
  result : GenomeArray
  selfAfter : GenomeArray
  otherAfter : Operand
deriving DecidableEq, Repr

/-- Direct buffer store new_array._chroms[chrom][strand] = buf. -/
def setBuffer (g : GenomeArray) (chrom strand : String) (buf : Buffer) : GenomeArray :=
  { g with chroms := aset g.chroms chrom (aset ((alookup g.chroms chrom).getD []) strand buf) }

/-- apply_operation of the dense GenomeArray.  A warning is emitted when
the normalize flag was set, but the dense method never actually clears the
flag; it only restores it onto self at the end.  In mode same the segment
end equals the current buffer length, so the getitem calls grow both
operands in place.  In mode all, fromkeys gives every chromosome a length
of None and numpy.zeros(None) raises TypeError inside the GenomeArray
constructor as soon as the union of chromosomes is nonempty. -/
def GenomeArray.apply_operation (self : GenomeArray) (other : Operand) (f : ℚ → ℚ → ℚ)
    (mode : String) : Except String ApplyResult :=
  let newArray := GenomeArray.like self
  let oldNormalize := self.normalize
  match other with
  | Operand.scalar q =>
    let na := self.keys.foldl (fun na chrom =>
      self.strands.foldl (fun na strand =>
        setBuffer na chrom strand ((bufferOf self chrom strand).map (fun x => f x q))) na) newArray
    Except.ok ⟨na, self.setNormalize oldNormalize, Operand.scalar q⟩
  | Operand.array o =>
    if mode = "same" then
      if sameDims self o then do
        let step := fun (acc : GenomeArray × GenomeArray × GenomeArray) (cs : String × String) => do
          let (na, s, ot) := acc
          let L := (bufferOf s cs.1 cs.2).length
          let seg : GenomicSegment := ⟨cs.1, 0, (L : Int), cs.2⟩
          let (sv, s') ← s.getitem seg true
          let (ov, o') ← ot.getitem seg true
          let na' ← na.setitem seg (GValue.vector (List.zipWith f sv ov)) true
          Except.ok (na', s', o')
        let pairs := (self.keys.map (fun c => self.strands.map (fun s => (c, s)))).flatten
        let res ← pairs.foldlM step (newArray, self, o)
        Except.ok ⟨res.1, res.2.1.setNormalize oldNormalize, Operand.array res.2.2⟩
      else Except.error "AssertionError: dimension mismatch"
    else if mode = "all" then
      if (self.keys ++ o.keys).dedup.isEmpty then
        let strandsU := (self.strands ++ o.strands).dedup
        Except.ok ⟨GenomeArray.create [] strandsU MIN_CHR_SIZE,
                   self.setNormalize oldNormalize, Operand.array o⟩
      else Except.error "TypeError: NoneType cannot be interpreted as an integer"
    else if mode = "truncate" then
      let myStrands := self.strands.filter (fun s => o.strands.contains s)
      let myChroms := self.keys.filter (fun c => o.keys.contains c)
      let na := myChroms.foldl (fun na chrom =>
        myStrands.foldl (fun na strand =>
          let sc := bufferOf self chrom strand
          let oc := bufferOf o chrom strand
          let sc2 := if sc.length > oc.length then resizeBuf sc oc.length else sc
          let oc2 := if oc.length > sc.length then resizeBuf oc sc.length else oc
          setBuffer na chrom strand (List.zipWith f sc2 oc2)) na) newArray
      Except.ok ⟨na, self.setNormalize oldNormalize, Operand.array o⟩
    else Except.error "ValueError: Mode not understood"

/-- One bedGraph data line: 0-based half-open start and end with a value. -/
structure BedLine where
  lstart : Nat
  lstop : Nat
  val : ℚ
deriving DecidableEq, Repr

/-- Loop body of the dense to_bedgraph: walk the values from the least to
the greatest nonzero index carrying last_x and last_val, write a line at
each value change and a final line after the loop. -/
def bgAux : List ℚ → Nat → Nat → ℚ → List BedLine
  | [], x, lastX, lastVal => [⟨lastX, x, lastVal⟩]
  | v :: rest, x, lastX, lastVal =>
    if v ≠ lastVal then ⟨lastX, x, lastVal⟩ :: bgAux rest (x + 1) x v
    else bgAux rest (x + 1) lastX lastVal

/-- Data lines the dense GenomeArray to_bedgraph writes for one chromosome
strand buffer: skipped entirely unless the buffer total is positive,
otherwise the walk runs from the least nonzero index (with last_x and
last_val initialized to 0) through the greatest nonzero index. -/
def bedgraphLines (buf : Buffer) : List BedLine :=
  if buf.sum > 0 then
    let nz := nonzeroIdx buf
    bgAux (readSlice buf (nz.headD 0) (nz.getLastD 0 + 1)) (nz.headD 0) 0 0
  else []

/-- Loop body of the BAM-backed to_bedgraph window: walk the window counts
carrying genomic_start_x and last_val; lines are only written when
last_val is positive. -/
def bamAux (wend : Nat) : List ℚ → Nat → Nat → ℚ → List BedLine
  | [], _, gsx, lastVal => if lastVal > 0 then [⟨gsx, wend, lastVal⟩] else []
  | v :: rest, x, gsx, lastVal =>
    if v ≠ lastVal then
      (if lastVal > 0 then [⟨gsx, x, lastVal⟩] else []) ++ bamAux wend rest (x + 1) x v
    else bamAux wend rest (x + 1) gsx lastVal

/-- Data lines the BAM-backed to_bedgraph writes for one window starting at
genome position wstart and holding the genome-order counts of the window:
skipped unless the window total is positive, otherwise a walk over the
counts beyond the first with last_val starting at the first count. -/
def bamBedgraphWindowLines (wstart : Nat) (counts : List ℚ) : List BedLine :=
  if counts.sum > 0 then
    match counts with
    | [] => []
    | c0 :: rest => bamAux (wstart + counts.length) rest (wstart + 1) wstart c0
  else []

/-- BAM-backed array at the interface boundary used by to_genome_array:
chromosome lengths read from the file headers (already sorted by name),
and the per-position value the current mapping rule reports for a
chromosome, strand and genome position (the net effect of the fetch,
filter and map pipeline of get_reads_and_counts, whose internals live in
pysam and the mapping factories outside this module). -/
structure BAMGenomeArray where
  chrLengths : List (String × Nat)
  counts : String → String → Nat → ℚ
  bamNormalize : Bool
  bamSum : ℚ

/-- Count vector of get_reads_and_counts over a segment: all-zero for an
unknown chromosome, else the per-position values over the segment in
genome order, normalized when the flag is set, reversed for minus-strand
segments when roiOrder is true. -/
def BAMGenomeArray.getValues (b : BAMGenomeArray) (roi : GenomicSegment)
    (roiOrder : Bool) : List ℚ :=
  if (b.chrLengths.map (fun p => p.1)).contains roi.chrom then
    let vals := (List.range' roi.start.toNat roi.length).map (b.counts roi.chrom roi.strand)
    let vals := if b.bamNormalize then vals.map (fun v => v / b.bamSum * 1000000) else vals
    if roiOrder = true ∧ roi.strand = "-" then vals.reverse else vals
  else List.replicate roi.length 0

/-- to_genome_array: build a mutable GenomeArray with the BAM chromosome
lengths and strands plus, minus and unstranded, then for every chromosome
and strand copy the segment from 0 to the chromosome length minus one. -/
def BAMGenomeArray.to_genome_array (b : BAMGenomeArray) : Except String GenomeArray :=
  let ga := GenomeArray.create b.chrLengths ["+", "-", "."] MIN_CHR_SIZE
  b.chrLengths.foldlM (fun ga p =>
    ["+", "-", "."].foldlM (fun (ga : GenomeArray) strand =>
      let seg : GenomicSegment := ⟨p.1, 0, (p.2 : Int) - 1, strand⟩
      ga.setitem seg (GValue.vector (b.getValues seg true)) true) ga) ga

/-- Check that a line list is a contiguous chain: the first line starts at
a, each line ends where the next starts, the last ends at b. -/
def chainedFrom (a : Nat) : List BedLine → Nat → Bool
  | [], b => a == b
  | l :: rest, b => (a == l.lstart) && chainedFrom l.lstop rest b

/-- Check that consecutive lines carry different values. -/
def adjacentDiffer : List BedLine → Bool
  | [] => true
  | [_] => true
  | l :: l2 :: rest => decide (l.val ≠ l2.val) && adjacentDiffer (l2 :: rest)

/-- Check that every position covered by a line holds the line value. -/
def lineConstOn (buf : Buffer) (l : BedLine) : Bool :=
  (List.range' l.lstart (l.lstop - l.lstart)).all (fun i => decide (buf.getD i 0 = l.val))

/-- Check that one BAM window line is a maximal positive-value run inside
the window: positive value, constant over the line, and cut off on each
side by the window edge or by a differing value. -/
def bamLineOK (wstart wend : Nat) (valAt : Nat → ℚ) (l : BedLine) : Bool :=
  decide (0 < l.val)
    && (List.range' l.lstart (l.lstop - l.lstart)).all (fun i => decide (valAt i = l.val))
    && ((l.lstart == wstart) || decide (valAt (l.lstart - 1) ≠ l.val))
    && ((l.lstop == wend) || decide (valAt l.lstop ≠ l.val))

/-- Greatest nonzero index of a buffer (0 for an all-zero buffer). -/
def nzLast (buf : Buffer) : Nat := (nonzeroIdx buf).getLastD 0

/-- Buffer length of an array operand (0 for a scalar operand). -/
def Operand.bufLength (op : Operand) (chrom strand : String) : Nat :=
  match op with
  | Operand.array g => (bufferOf g chrom strand).length
  | Operand.scalar _ => 0

/-- Example array with one chromosome chrA holding value 1 on plus. -/
def exA4 : GenomeArray :=
  { chroms := [("chrA", [("+", [1]), ("-", [0])])], strands := ["+", "-"],
    minChrSize := MIN_CHR_SIZE, sumCache := none, normalize := false }

/-- Example array with one chromosome chrB holding value 2 on plus. -/
def exB4 : GenomeArray :=
  { chroms := [("chrB", [("+", [2]), ("-", [0])])], strands := ["+", "-"],
    minChrSize := MIN_CHR_SIZE, sumCache := none, normalize := false }

/-- Example normalized single-strand array: chrA plus holds [4], the sum
cache holds 4 (a prior sum call), normalization is on. -/
def exA5 : GenomeArray :=
  { chroms := [("chrA", [("+", [4])])], strands := ["+"],
    minChrSize := MIN_CHR_SIZE, sumCache := some 4, normalize := true }

/-- Second operand identical in dimensions and content to exA5. -/
def exB5 : GenomeArray :=
  { chroms := [("chrA", [("+", [4])])], strands := ["+"],
    minChrSize := MIN_CHR_SIZE, sumCache := some 4, normalize := true }

/-- Example array whose only nonzero position is 2 with value 5. -/
def exA8 : GenomeArray :=
  { chroms := [("chrA", [("+", [0, 0, 5]), ("-", [0, 0, 0])])], strands := ["+", "-"],
    minChrSize := MIN_CHR_SIZE, sumCache := none, normalize := false }

/-- Example array whose only nonzero position is 2 with value 7. -/
def exB8 : GenomeArray :=
  { chroms := [("chrA", [("+", [0, 0, 7]), ("-", [0, 0, 0])])], strands := ["+", "-"],
    minChrSize := MIN_CHR_SIZE, sumCache := none, normalize := false }

/-- Example BAM-backed array: one chromosome chrA of declared length 5
whose mapping rule reports value 1 at plus-strand position 4 (the last
position) and 0 elsewhere. -/
def exBam10 : BAMGenomeArray :=
  { chrLengths := [("chrA", 5)],
    counts := fun c s p => if c = "chrA" ∧ s = "+" ∧ p = 4 then 1 else 0,
    bamNormalize := false, bamSum := 1 }

/-- Example empty two-strand array with a 120-long chrA, for round trips. -/
def exG1 : GenomeArray :=
  { chroms := [("chrA", [("+", List.replicate 120 0), ("-", List.replicate 120 0)])],
    strands := ["+", "-"], minChrSize := MIN_CHR_SIZE, sumCache := none, normalize := false }

/-- Example normalized array whose total is 2000000 with raw value 4 at
plus-strand position 0 of chrA. -/
def exG3 : GenomeArray :=
  { chroms := [("chrA", [("+", [4, 1999996])])], strands := ["+"],
    minChrSize := MIN_CHR_SIZE, sumCache := none, normalize := true }

/-- Buffer of exA5 after the in-place growth mode same triggers. -/
def c5buf : Buffer := (4 : ℚ) :: List.replicate 10000 0

/-- Result buffer mode same computes from the normalized operands. -/
def c5res : Buffer := (2000000 : ℚ) :: List.replicate 10000 0

/-- State of either operand after apply_operation in mode same grew it. -/
def c5grown : GenomeArray := ⟨[("chrA", [("+", c5buf)])], ["+"], MIN_CHR_SIZE, some 4, true⟩

/-- Result array apply_operation returns for exA5 and exB5 in mode same. -/
def exR5 : GenomeArray := ⟨[("chrA", [("+", c5res)])], ["+"], MIN_CHR_SIZE, none, false⟩

/-- C2: five_prime_map with offset 2 on an ungapped alignment spanning
[50,70) returns the single pair ((chrom,52,53,+),1.0) when plus-strand and
((chrom,67,68,-),1.0) when minus-strand; and whenever the offset exceeds
the read length the alignment is discarded with a warning and the empty
list is returned. -/
theorem claim_C2_five_prime_map :
    (∀ chrom : String,
      five_prime_map ⟨⟨chrom, 50, 70, "+"⟩⟩ { offset := some 2 } =
        Except.ok ([], [(⟨chrom, 52, 53, "+"⟩, 1)]) ∧
      five_prime_map ⟨⟨chrom, 50, 70, "-"⟩⟩ { offset := some 2 } =
        Except.ok ([], [(⟨chrom, 67, 68, "-"⟩, 1)])) ∧
    (∀ (f : Feature) (kw : MapKwargs) (o : Int),
      kw.offset = some o → o > (f.length : Int) →
      five_prime_map f kw = Except.ok ([MapWarning.offsetTooLong], [])) := by
  constructor
  · intro chrom
    constructor
    · simp [five_prime_map, Feature.length, GenomicSegment.length]
    · simp [five_prime_map, Feature.length, GenomicSegment.length]
  · intro f kw o ho hgt
    simp [five_prime_map, ho, hgt]

/-- Witness for C2 at chrom chrA and at a read of length 20 with offset 25. -/
theorem claim_C2_five_prime_map_witness :
    (five_prime_map ⟨⟨"chrA", 50, 70, "+"⟩⟩ { offset := some 2 } =
        Except.ok ([], [(⟨"chrA", 52, 53, "+"⟩, 1)])) ∧
    (five_prime_map ⟨⟨"chrA", 50, 70, "-"⟩⟩ { offset := some 25 } =
        Except.ok ([MapWarning.offsetTooLong], [])) := by
  constructor
  · exact (claim_C2_five_prime_map.1 "chrA").1
  · exact claim_C2_five_prime_map.2 ⟨⟨"chrA", 50, 70, "-"⟩⟩ { offset := some 25 } 25 rfl (by decide)

/-- C6: the claim that every mapping function tolerates omitted optional
parameters fails on center_map, which reads kwargs nibble with a mandatory
dict access and raises KeyError when nibble is omitted, contradicting its
own docstring default of 0; the other three functions do fall back to
their documented defaults. -/
theorem claim_C6_center_map_nibble_keyerror :
    center_map ⟨⟨"chrA", 50, 70, "+"⟩⟩ {} = Except.error "KeyError: nibble" ∧
    five_prime_map ⟨⟨"chrA", 50, 70, "+"⟩⟩ {} =
      Except.ok ([], [(⟨"chrA", 50, 51, "+"⟩, 1)]) ∧
    three_prime_map ⟨⟨"chrA", 50, 70, "+"⟩⟩ {} =
      Except.ok ([], [(⟨"chrA", 69, 70, "+"⟩, 1)]) ∧
    variable_five_prime_map ⟨⟨"chrA", 50, 70, "+"⟩⟩ { offsetDict := some ([(20, 0)], none) } =
      Except.ok ([], [(⟨"chrA", 50, 51, "+"⟩, 1)]) := by
  exact ⟨rfl, rfl, rfl, rfl⟩

/-- C7: variable_five_prime_map discards the alignment (empty list plus a
warning) exactly when the offset table holds neither the alignment length
nor a default entry; when an offset is found that meets or exceeds the
read length, a warning is emitted but the one-position segment computed
from the offset is still returned. -/
theorem claim_C7_variable_five_prime_map (f : Feature) (kw : MapKwargs)
    (table : List (Nat × Int)) (dflt : Option Int)
    (hkw : kw.offsetDict = some (table, dflt)) :
    (((match lookupNat table f.spanningSegment.length with
       | some o => some o
       | none => dflt) = (none : Option Int)) →
      variable_five_prime_map f kw = Except.ok ([MapWarning.noOffset], [])) ∧
    (∀ o : Int,
      ((match lookupNat table f.spanningSegment.length with
        | some o2 => some o2
        | none => dflt) = some o) →
      variable_five_prime_map f kw =
        Except.ok ((if o ≥ (f.length : Int) then [MapWarning.offsetTooLong] else []),
          [(⟨f.spanningSegment.chrom,
             (if f.spanningSegment.strand = "+" ∨ f.spanningSegment.strand = "." then
                f.spanningSegment.start + o
              else f.spanningSegment.stopp - 1 - o),
             (if f.spanningSegment.strand = "+" ∨ f.spanningSegment.strand = "." then
                f.spanningSegment.start + o
              else f.spanningSegment.stopp - 1 - o) + 1,
             f.spanningSegment.strand⟩, kw.value.getD 1)])) := by
  constructor
  · intro hnone
    simp [variable_five_prime_map, hkw, hnone]
  · intro o ho
    simp [variable_five_prime_map, hkw, ho]

/-- Witness for C7: a length-20 read with an empty table is discarded; a
length-20 read looked up to offset 25 gets a warning but is still mapped. -/
theorem claim_C7_variable_five_prime_map_witness :
    (variable_five_prime_map ⟨⟨"chrA", 50, 70, "+"⟩⟩ { offsetDict := some ([], none) } =
      Except.ok ([MapWarning.noOffset], [])) ∧
    (variable_five_prime_map ⟨⟨"chrA", 50, 70, "+"⟩⟩ { offsetDict := some ([(20, 25)], none) } =
      Except.ok ([MapWarning.offsetTooLong], [(⟨"chrA", 75, 76, "+"⟩, 1)])) := by
  constructor
  · exact (claim_C7_variable_five_prime_map ⟨⟨"chrA", 50, 70, "+"⟩⟩
      { offsetDict := some ([], none) } [] none rfl).1 (by decide)
  · have h := (claim_C7_variable_five_prime_map ⟨⟨"chrA", 50, 70, "+"⟩⟩
      { offsetDict := some ([(20, 25)], none) } [(20, 25)] none rfl).2 25 (by decide)
    simpa using h

/-- Mapping the overwrite function over a dict that holds the key makes
the lookup find the new value. -/
theorem alookup_map_overwrite (k : String) (v : α) :
    ∀ d : List (String × α), d.any (fun p => p.1 = k) = true →
      alookup (d.map (fun p => if p.1 = k then (k, v) else p)) k = some v := by
  intro d
  induction d with
  | nil => intro hmem; simp at hmem
  | cons p rest ih =>
    intro hmem
    by_cases hp : p.1 = k
    · simp [alookup, hp]
    · have hrest : rest.any (fun p => p.1 = k) = true := by
        simp only [List.any_cons, Bool.or_eq_true, decide_eq_true_eq] at hmem
        rcases hmem with h | h
        · exact absurd h hp
        · simpa using h
      simpa [alookup, hp] using ih hrest

/-- Looking up the key just stored finds the stored value. -/
theorem alookup_aset_self (d : List (String × α)) (k : String) (v : α) :
    alookup (aset d k v) k = some v := by
  unfold aset
  by_cases hmem : d.any (fun p => p.1 = k) = true
  · simp only [hmem, if_true]
    exact alookup_map_overwrite k v d hmem
  · simp only [hmem, if_false]
    have hnone : d.find? (fun p => decide (p.1 = k)) = none := by
      rw [List.find?_eq_none]
      intro p hp
      simp only [List.any_eq_true] at hmem
      simp only [decide_eq_true_eq]
      intro hk
      exact hmem ⟨p, hp, by simp [hk]⟩
    simp [alookup, List.find?_append, hnone]

/-- Writing inside the buffer keeps the length. -/
theorem writeVec_length (buf : Buffer) (s : Nat) (v : List ℚ)
    (h : s + v.length ≤ buf.length) : (writeVec buf s v).length = buf.length := by
  simp [writeVec]
  omega

/-- Reading back the slice just written returns the written vector. -/
theorem readSlice_writeVec (buf : Buffer) (s : Nat) (v : List ℚ)
    (h : s + v.length ≤ buf.length) :
    readSlice (writeVec buf s v) s (s + v.length) = v := by
  unfold readSlice writeVec
  have hs : (buf.take s).length = s := by simp; omega
  rw [List.append_assoc, List.drop_left' hs]
  have : s + v.length - s = v.length := by omega
  rw [this, List.take_left' rfl]

/-- Length of a slice read that stays inside the buffer. -/
theorem readSlice_length (buf : Buffer) (s e : Nat) (h : e ≤ buf.length) :
    (readSlice buf s e).length = e - s := by
  simp [readSlice]
  omega

/-- Entry j of a slice read is entry s + j of the buffer. -/
theorem readSlice_getD (buf : Buffer) (s e j : Nat) (hj : j < e - s)
    (hlen : s + j < buf.length) :
    (readSlice buf s e).getD j 0 = buf.getD (s + j) 0 := by
  have h1 : j < (readSlice buf s e).length := by
    simp only [readSlice, List.length_take, List.length_drop]
    omega
  have h2 : j < (buf.drop s).length := by simp; omega
  rw [List.getD_eq_getElem _ _ h1, List.getD_eq_getElem _ _ hlen]
  simp only [readSlice]
  rw [List.getElem_take]
  exact List.getElem_drop buf

/-- Bind on a successful Except reduces to the continuation. -/
theorem except_bind_ok (a : α) (f : α → Except String β) :
    (Except.ok a : Except String α) >>= f = f a := rfl

/-- ensureFits leaves the array unchanged when the segment end is strictly
inside the addressed buffer. -/
theorem ensureFits_noGrow (g : GenomeArray) (chrom strand : String)
    (sd : StrandDict) (buf : Buffer) (stopp : Int)
    (hcd : alookup g.chroms chrom = some sd)
    (hsd : alookup sd strand = some buf)
    (hfit : stopp < (buf.length : Int)) :
    g.ensureFits chrom strand stopp = Except.ok g := by
  unfold GenomeArray.ensureFits
  simp only [hcd, hsd]
  rw [if_pos hfit]

/-- Explicit form of a non-growing vector setitem: the cached sum is
cleared and the addressed buffer gets the vector written at the segment
start, reversed first for a minus-strand segment. -/
theorem setitem_vector_eq (g : GenomeArray) (iv : GenomicSegment) (v : List ℚ)
    (sd : StrandDict) (buf : Buffer)
    (hcd : alookup g.chroms iv.chrom = some sd)
    (hsd : alookup sd iv.strand = some buf)
    (h0 : 0 ≤ iv.start) (hse : iv.start ≤ iv.stopp)
    (hfit : iv.stopp < (buf.length : Int))
    (hlen : v.length = iv.length) :
    g.setitem iv (GValue.vector v) true =
      Except.ok ⟨aset g.chroms iv.chrom (aset sd iv.strand
          (writeVec buf iv.start.toNat (if iv.strand = "-" then v.reverse else v))),
        g.strands, g.minChrSize, none, g.normalize⟩ := by
  have hlenN : v.length = iv.stopp.toNat - iv.start.toNat := by
    rw [hlen]; unfold GenomicSegment.length; omega
  have hminS : min iv.start.toNat buf.length = iv.start.toNat := by omega
  have hminE : min iv.stopp.toNat buf.length = iv.stopp.toNat := by omega
  have hfits :
      GenomeArray.ensureFits
        { g with sumCache := none, normalize := false } iv.chrom iv.strand iv.stopp =
        Except.ok { g with sumCache := none, normalize := false } :=
    ensureFits_noGrow _ iv.chrom iv.strand sd buf iv.stopp hcd hsd hfit
  by_cases hstr : iv.strand = "-"
  · rw [hstr] at hfits hsd
    unfold GenomeArray.setitem
    simp only [GenomeArray.setNormalize, hstr, and_true, eq_self_iff_true, if_true,
      GValue.rev, hfits, except_bind_ok]
    simp only [hcd, hsd, Option.getD_some, List.length_reverse, hminS, hminE]
    rw [if_pos (by omega)]
  · unfold GenomeArray.setitem
    simp only [GenomeArray.setNormalize, GValue.rev, hfits, except_bind_ok,
      if_neg (fun h => hstr (And.left h))]
    simp only [hcd, hsd, Option.getD_some, hminS, hminE]
    rw [if_pos (by omega), if_neg hstr]

/-- Explicit form of a non-growing scalar setitem: the cached sum is
cleared and the scalar is broadcast over the addressed slice. -/
theorem setitem_scalar_eq (g : GenomeArray) (iv : GenomicSegment) (q : ℚ)
    (sd : StrandDict) (buf : Buffer)
    (hcd : alookup g.chroms iv.chrom = some sd)
    (hsd : alookup sd iv.strand = some buf)
    (hfit : iv.stopp < (buf.length : Int)) :
    g.setitem iv (GValue.scalar q) true =
      Except.ok ⟨aset g.chroms iv.chrom (aset sd iv.strand
          (writeScalar buf iv.start.toNat iv.stopp.toNat q)),
        g.strands, g.minChrSize, none, g.normalize⟩ := by
  have hfits :
      GenomeArray.ensureFits
        { g with sumCache := none, normalize := false } iv.chrom iv.strand iv.stopp =
        Except.ok { g with sumCache := none, normalize := false } :=
    ensureFits_noGrow _ iv.chrom iv.strand sd buf iv.stopp hcd hsd hfit
  unfold GenomeArray.setitem
  simp only [GenomeArray.setNormalize, GValue.rev, ite_self, hfits, except_bind_ok,
    hcd, hsd, Option.getD_some]

/-- Explicit form of a non-growing getitem with normalization off: the
slice in genome order, reversed for a minus-strand segment, and the array
returned unchanged. -/
theorem getitem_eq_nonorm (g : GenomeArray) (iv : GenomicSegment)
    (sd : StrandDict) (buf : Buffer)
    (hcd : alookup g.chroms iv.chrom = some sd)
    (hsd : alookup sd iv.strand = some buf)
    (hfit : iv.stopp < (buf.length : Int))
    (hnorm : g.normalize = false) :
    g.getitem iv true = Except.ok
      ((if iv.strand = "-" then (readSlice buf iv.start.toNat iv.stopp.toNat).reverse
        else readSlice buf iv.start.toNat iv.stopp.toNat), g) := by
  unfold GenomeArray.getitem
  rw [ensureFits_noGrow g iv.chrom iv.strand sd buf iv.stopp hcd hsd hfit]
  simp only [except_bind_ok, bufferOf, hcd, hsd, Option.some_bind, Option.getD_some, hnorm,
    Bool.false_eq_true, if_false, eq_self_iff_true, true_and]

/-- Explicit form of a non-growing getitem with normalization on: every
slice entry is scaled by one million over the sum, the sum cache is
filled, the vector is reversed for a minus-strand segment. -/
theorem getitem_eq_norm (g : GenomeArray) (iv : GenomicSegment)
    (sd : StrandDict) (buf : Buffer)
    (hcd : alookup g.chroms iv.chrom = some sd)
    (hsd : alookup sd iv.strand = some buf)
    (hfit : iv.stopp < (buf.length : Int))
    (hnorm : g.normalize = true) :
    g.getitem iv true = Except.ok
      ((if iv.strand = "-" then
          ((readSlice buf iv.start.toNat iv.stopp.toNat).map
            (fun x => 1000000 * x / g.sumVal)).reverse
        else (readSlice buf iv.start.toNat iv.stopp.toNat).map
            (fun x => 1000000 * x / g.sumVal)),
       ⟨g.chroms, g.strands, g.minChrSize, some g.sumVal, g.normalize⟩) := by
  unfold GenomeArray.getitem
  rw [ensureFits_noGrow g iv.chrom iv.strand sd buf iv.stopp hcd hsd hfit]
  simp only [except_bind_ok, bufferOf, hcd, hsd, Option.some_bind, Option.getD_some, hnorm,
    if_true, eq_self_iff_true, true_and]

/-- Reading back the slice over a scalar write gives the broadcast scalar. -/
theorem readSlice_writeScalar (buf : Buffer) (s e : Nat) (q : ℚ)
    (hs : s ≤ e) (he : e ≤ buf.length) :
    readSlice (writeScalar buf s e q) s e = List.replicate (e - s) q := by
  unfold writeScalar
  have h1 : min s buf.length = s := by omega
  have h2 : min e buf.length = e := by omega
  rw [h1, h2]
  have h3 : s + (List.replicate (e - s) q).length ≤ buf.length := by simp; omega
  have h4 := readSlice_writeVec buf s (List.replicate (e - s) q) h3
  rwa [show s + (List.replicate (e - s) q).length = e by simp; omega] at h4

/-- Length preservation of a scalar write inside the buffer. -/
theorem writeScalar_length (buf : Buffer) (s e : Nat) (q : ℚ)
    (hs : s ≤ e) (he : e ≤ buf.length) :
    (writeScalar buf s e q).length = buf.length := by
  unfold writeScalar
  have h1 : min s buf.length = s := by omega
  have h2 : min e buf.length = e := by omega
  rw [h1, h2]
  exact writeVec_length buf s _ (by simp; omega)

/-- Entry s + j of a written slice is entry j of the written vector. -/
theorem writeVec_getD (buf : Buffer) (s : Nat) (v : List ℚ) (j : Nat)
    (hj : j < v.length) (h : s + v.length ≤ buf.length) :
    (writeVec buf s v).getD (s + j) 0 = v.getD j 0 := by
  have h1 := readSlice_writeVec buf s v h
  have h2 : (writeVec buf s v).length = buf.length := writeVec_length buf s v h
  have := readSlice_getD (writeVec buf s v) s (s + v.length) j (by omega) (by omega)
  rw [h1] at this
  exact this.symm

/-- C1: on the mutable dense array, with normalization off and the segment
strictly inside the existing buffer (no growth), setting a vector ordered
5prime-to-3prime over a segment of either strand and getting it back
returns exactly the vector; a scalar set reads back as the constant
vector; and for a minus-strand segment covering [100,105), entry 0 of the
fetched vector is the value stored at genome position 104 while entry 4 is
the value stored at position 100. -/
theorem claim_C1_set_get_roundtrip (g : GenomeArray) (iv : GenomicSegment)
    (sd : StrandDict) (buf : Buffer)
    (hcd : alookup g.chroms iv.chrom = some sd)
    (hsd : alookup sd iv.strand = some buf)
    (hnorm : g.normalize = false)
    (h0 : 0 ≤ iv.start) (hse : iv.start ≤ iv.stopp)
    (hfit : iv.stopp < (buf.length : Int)) :
    (∀ v : List ℚ, v.length = iv.length →
      ∃ g2, g.setitem iv (GValue.vector v) true = Except.ok g2 ∧
        g2.getitem iv true = Except.ok (v, g2)) ∧
    (∀ q : ℚ, ∃ g2, g.setitem iv (GValue.scalar q) true = Except.ok g2 ∧
        g2.getitem iv true = Except.ok (List.replicate iv.length q, g2)) ∧
    (∀ a b c d e : ℚ, iv.start = 100 → iv.stopp = 105 → iv.strand = "-" →
      ∃ g2, g.setitem iv (GValue.vector [a, b, c, d, e]) true = Except.ok g2 ∧
        g2.getValsD iv = [a, b, c, d, e] ∧
        (bufferOf g2 iv.chrom "-").getD 104 0 = a ∧
        (bufferOf g2 iv.chrom "-").getD 100 0 = e) := by
  have hlenIv : iv.length = iv.stopp.toNat - iv.start.toNat := by
    unfold GenomicSegment.length; omega
  have hv_main : ∀ v : List ℚ, v.length = iv.length →
      ∃ g2, g.setitem iv (GValue.vector v) true = Except.ok g2 ∧
        g2.getitem iv true = Except.ok (v, g2) ∧
        g2.chroms = aset g.chroms iv.chrom (aset sd iv.strand
          (writeVec buf iv.start.toNat (if iv.strand = "-" then v.reverse else v))) := by
    intro v hv
    have hset := setitem_vector_eq g iv v sd buf hcd hsd h0 hse hfit hv
    refine ⟨_, hset, ?_, rfl⟩
    set vr := if iv.strand = "-" then v.reverse else v with hvr
    have hvrlen : vr.length = v.length := by rw [hvr]; split <;> simp
    have hle : iv.start.toNat + vr.length ≤ buf.length := by
      rw [hvrlen, hv, hlenIv]; omega
    have hcd2 := alookup_aset_self g.chroms iv.chrom
      (aset sd iv.strand (writeVec buf iv.start.toNat vr))
    have hsd2 := alookup_aset_self sd iv.strand (writeVec buf iv.start.toNat vr)
    have hlen2 : (writeVec buf iv.start.toNat vr).length = buf.length :=
      writeVec_length buf _ _ hle
    have hget := getitem_eq_nonorm
      ⟨aset g.chroms iv.chrom (aset sd iv.strand (writeVec buf iv.start.toNat vr)),
        g.strands, g.minChrSize, none, g.normalize⟩ iv
      (aset sd iv.strand (writeVec buf iv.start.toNat vr))
      (writeVec buf iv.start.toNat vr) hcd2 hsd2 (by rw [hlen2]; exact hfit) hnorm
    rw [hget]
    have hE : iv.stopp.toNat = iv.start.toNat + vr.length := by
      rw [hvrlen, hv, hlenIv]; omega
    rw [hE, readSlice_writeVec buf iv.start.toNat vr hle]
    by_cases hstr : iv.strand = "-"
    · rw [hvr, if_pos hstr, if_pos hstr, List.reverse_reverse]
    · rw [hvr, if_neg hstr, if_neg hstr]
  refine ⟨fun v hv => (hv_main v hv).imp (fun g2 h => ⟨h.1, h.2.1⟩), ?_, ?_⟩
  · intro q
    have hset := setitem_scalar_eq g iv q sd buf hcd hsd hfit
    refine ⟨_, hset, ?_⟩
    have hsle : iv.start.toNat ≤ iv.stopp.toNat := by omega
    have hele : iv.stopp.toNat ≤ buf.length := by omega
    have hcd2 := alookup_aset_self g.chroms iv.chrom
      (aset sd iv.strand (writeScalar buf iv.start.toNat iv.stopp.toNat q))
    have hsd2 := alookup_aset_self sd iv.strand (writeScalar buf iv.start.toNat iv.stopp.toNat q)
    have hlen2 : (writeScalar buf iv.start.toNat iv.stopp.toNat q).length = buf.length :=
      writeScalar_length buf _ _ q hsle hele
    have hget := getitem_eq_nonorm
      ⟨aset g.chroms iv.chrom (aset sd iv.strand
          (writeScalar buf iv.start.toNat iv.stopp.toNat q)),
        g.strands, g.minChrSize, none, g.normalize⟩ iv
      (aset sd iv.strand (writeScalar buf iv.start.toNat iv.stopp.toNat q))
      (writeScalar buf iv.start.toNat iv.stopp.toNat q) hcd2 hsd2 (by rw [hlen2]; exact hfit) hnorm
    rw [hget, readSlice_writeScalar buf iv.start.toNat iv.stopp.toNat q hsle hele]
    rw [hlenIv]
    by_cases hstr : iv.strand = "-"
    · rw [if_pos hstr, List.reverse_replicate]
    · rw [if_neg hstr]
  · intro a b c d e hstart hstopp hstr
    obtain ⟨g2, hset, hget, hchroms⟩ := hv_main [a, b, c, d, e]
      (by rw [hlenIv, hstart, hstopp]; rfl)
    refine ⟨g2, hset, ?_, ?_, ?_⟩
    · unfold GenomeArray.getValsD
      rw [hget]
      rfl
    · have hb : bufferOf g2 iv.chrom "-" =
          writeVec buf iv.start.toNat [e, d, c, b, a] := by
        unfold bufferOf
        rw [hchroms, alookup_aset_self, Option.some_bind, hstr, alookup_aset_self]
        simp
      rw [hb]
      have h104 : (104 : Nat) = iv.start.toNat + 4 := by omega
      rw [h104, writeVec_getD buf iv.start.toNat [e, d, c, b, a] 4 (by simp) (by simp; omega)]
      rfl
    · have hb : bufferOf g2 iv.chrom "-" =
          writeVec buf iv.start.toNat [e, d, c, b, a] := by
        unfold bufferOf
        rw [hchroms, alookup_aset_self, Option.some_bind, hstr, alookup_aset_self]
        simp
      rw [hb]
      have h100 : (100 : Nat) = iv.start.toNat + 0 := by omega
      rw [h100, writeVec_getD buf iv.start.toNat [e, d, c, b, a] 0 (by simp) (by simp; omega)]
      rfl

set_option maxRecDepth 8000 in
/-- Witness for C1 on a fresh two-strand array with 120-long buffers. -/
theorem claim_C1_set_get_roundtrip_witness :
    ∃ g2, exG1.setitem ⟨"chrA", 100, 105, "-"⟩ (GValue.vector [1, 2, 3, 4, 5]) true =
        Except.ok g2 ∧
      g2.getitem ⟨"chrA", 100, 105, "-"⟩ true = Except.ok ([1, 2, 3, 4, 5], g2) ∧
      (bufferOf g2 "chrA" "-").getD 104 0 = 1 ∧ (bufferOf g2 "chrA" "-").getD 100 0 = 5 := by
  have h := claim_C1_set_get_roundtrip exG1 ⟨"chrA", 100, 105, "-"⟩
    [("+", List.replicate 120 0), ("-", List.replicate 120 0)] (List.replicate 120 0)
    (by rfl) (by rfl) (by rfl) (by decide) (by decide) (by decide)
  obtain ⟨g2, hset, hget⟩ := h.1 [1, 2, 3, 4, 5] (by decide)
  obtain ⟨g2b, hsetb, hvals, h104, h100⟩ := h.2.2 1 2 3 4 5 rfl rfl rfl
  rw [hset] at hsetb
  have hgg : g2b = g2 := (Except.ok.inj hsetb).symm
  rw [hgg] at h104 h100
  exact ⟨g2, hset, hget, h104, h100⟩

/-- A one-position slice read inside the buffer. -/
theorem readSlice_singleton (buf : Buffer) (p : Nat) (h : p < buf.length) :
    readSlice buf p (p + 1) = [buf.getD p 0] := by
  have h1 : (readSlice buf p (p + 1)).length = 1 := by
    rw [readSlice_length buf p (p + 1) (by omega)]; omega
  obtain ⟨x, hx⟩ := List.length_eq_one.mp h1
  have h2 := readSlice_getD buf p (p + 1) 0 (by omega) (by omega)
  rw [hx] at h2 ⊢
  simp only [List.getD_cons_zero, Nat.add_zero] at h2
  rw [h2]

unseal Rat.add Rat.sub Rat.mul Rat.inv

/-- C3: normalization is a read-time view transform only: with the array
sum equal to 2000000 and the normalize flag on, a position holding raw
value 4 is reported as 2 (raw value times one million over the sum); sum
reports the true unnormalized total regardless of the flag; and toggling
the flag changes no stored value. -/
theorem claim_C3_normalization (g : GenomeArray) (chrom strand : String)
    (sd : StrandDict) (buf : Buffer) (p : Nat)
    (hcd : alookup g.chroms chrom = some sd)
    (hsd : alookup sd strand = some buf)
    (hfit : ((p : Int) + 1) < (buf.length : Int))
    (hval : buf.getD p 0 = 4)
    (hsum : g.sumVal = 2000000)
    (hnorm : g.normalize = true) :
    (∃ g2, g.getitem ⟨chrom, (p : Int), (p : Int) + 1, strand⟩ true = Except.ok ([2], g2) ∧
      g2.chroms = g.chroms) ∧
    (∀ b : Bool, (g.setNormalize b).sumVal = g.sumVal ∧ (g.setNormalize b).chroms = g.chroms) := by
  constructor
  · have hget := getitem_eq_norm g ⟨chrom, (p : Int), (p : Int) + 1, strand⟩ sd buf hcd hsd
      hfit hnorm
    refine ⟨⟨g.chroms, g.strands, g.minChrSize, some g.sumVal, g.normalize⟩, ?_, rfl⟩
    rw [hget]
    have hs : ((p : Int)).toNat = p := by omega
    have he : ((p : Int) + 1).toNat = p + 1 := by omega
    have hp : p < buf.length := by omega
    have hmap : (readSlice buf ((p : Int)).toNat (((p : Int)) + 1).toNat).map
        (fun x => 1000000 * x / g.sumVal) = [2] := by
      rw [hs, he, readSlice_singleton buf p hp, hval, hsum]
      norm_num
    simp only [hmap]
    split
    · rfl
    · rfl
  · intro b
    exact ⟨rfl, rfl⟩

set_option maxRecDepth 2000 in
/-- Witness for C3 on an array whose plus strand of chrA holds 4 and
1999996 (total 2000000) with normalization on. -/
theorem claim_C3_normalization_witness :
    (∃ g2, exG3.getitem ⟨"chrA", (0 : Nat), (0 : Nat) + 1, "+"⟩ true = Except.ok ([2], g2) ∧
      g2.chroms = exG3.chroms) ∧
    (∀ b : Bool, (exG3.setNormalize b).sumVal = exG3.sumVal ∧
      (exG3.setNormalize b).chroms = exG3.chroms) :=
  claim_C3_normalization exG3 "chrA" "+" [("+", [4, 1999996])] [4, 1999996] 0
    (by rfl) (by rfl) (by decide) (by decide) (by decide) (by rfl)

/-- Lookup in a key-preserving map of a pair list. -/
theorem alookup_map_snd {β γ : Type} (L : List (String × β)) (F : String × β → γ)
    (k : String) :
    alookup (L.map (fun p => (p.1, F p))) k = (L.find? (fun p => p.1 = k)).map F := by
  induction L with
  | nil => rfl
  | cons p rest ih =>
    unfold alookup at ih ⊢
    rw [List.map_cons, List.find?_cons, List.find?_cons]
    by_cases hp : p.1 = k
    · simp [hp]
    · have hd : (decide (p.1 = k)) = false := decide_eq_false hp
      simp only [hd]
      exact ih

/-- A lookup in a constant-valued map can only return the constant. -/
theorem alookup_map_const (S : List String) (c : α) (k : String) (v : α)
    (h : alookup (S.map (fun s => (s, c))) k = some v) : v = c := by
  induction S with
  | nil => simp [alookup] at h
  | cons s rest ih =>
    by_cases hs : s = k
    · simp [alookup, List.find?_cons, hs] at h
      exact h.symm
    · exact ih (by simpa [alookup, List.find?_cons, hs] using h)

/-- Every value of a freshly created GenomeArray buffer is zero. -/
theorem create_buffer_zero (L : List (String × Nat)) (S : List String) (m : Nat)
    (chrom strand : String) :
    ∀ x ∈ bufferOf (GenomeArray.create L S m) chrom strand, x = 0 := by
  intro x hx
  unfold bufferOf GenomeArray.create at hx
  rw [alookup_map_snd] at hx
  rcases hfind : L.find? (fun p => p.1 = chrom) with _ | p
  · rw [hfind] at hx; simp at hx
  · rw [hfind] at hx
    simp only [Option.map_some', Option.some_bind] at hx
    rcases hsd : alookup (S.map (fun s => (s, List.replicate p.2 (0 : ℚ)))) strand with _ | bufv
    · rw [hsd] at hx; simp at hx
    · rw [hsd] at hx
      simp only [Option.getD_some] at hx
      have := alookup_map_const S _ strand bufv hsd
      rw [this] at hx
      exact List.eq_of_mem_replicate hx

/-- Keys of the clone returned by like are the keys of the original. -/
theorem like_keys (a : GenomeArray) : (GenomeArray.like a).keys = a.keys := by
  unfold GenomeArray.like GenomeArray.create GenomeArray.keys GenomeArray.lengths
  simp [List.map_map, Function.comp]


/-- Counterexample for C4: over disjoint chromosome sets, truncate-mode
apply_operation returns an array that still holds the chromosome of the
left operand (inherited from like), not zero chromosomes. -/
theorem claim_C4_truncate_disjoint_cex :
    (exA4.apply_operation (Operand.array exB4) (fun x y => x + y) "truncate").toOption.map
      (fun r => r.result.keys) = some ["chrA"] ∧ ("chrA" :: ([] : List String)) ≠ [] := by
  exact ⟨by decide, by decide⟩

/-- C4 amended: over disjoint chromosome sets, truncate-mode
apply_operation returns exactly like(self): an array with the chromosome
set of the left operand and every buffer all-zero, while both operands are
returned unchanged; no chromosome/strand pair is combined (only the
common pairs would be, and there are none). -/
theorem claim_C4_truncate_disjoint (a b : GenomeArray) (f : ℚ → ℚ → ℚ)
    (hdisj : ∀ c, c ∈ a.keys → c ∉ b.keys) :
    a.apply_operation (Operand.array b) f "truncate" =
      Except.ok ⟨GenomeArray.like a, a, Operand.array b⟩ ∧
    (GenomeArray.like a).keys = a.keys ∧
    (∀ chrom strand : String, ∀ x ∈ bufferOf (GenomeArray.like a) chrom strand, x = 0) := by
  refine ⟨?_, like_keys a, fun chrom strand => create_buffer_zero a.lengths a.strands
    MIN_CHR_SIZE chrom strand⟩
  have hchroms0 : a.keys.filter (fun c => b.keys.contains c) = [] := by
    rw [List.filter_eq_nil_iff]
    intro c hc
    simpa using hdisj c hc
  unfold GenomeArray.apply_operation
  simp only [reduceIte, hchroms0]
  rfl

/-- Witness for C4 amended at the concrete disjoint pair exA4 and exB4. -/
theorem claim_C4_truncate_disjoint_witness :
    (exA4.apply_operation (Operand.array exB4) (fun x y => x + y) "truncate" =
      Except.ok ⟨GenomeArray.like exA4, exA4, Operand.array exB4⟩) ∧
    (GenomeArray.like exA4).keys = exA4.keys ∧
    (∀ chrom strand : String, ∀ x ∈ bufferOf (GenomeArray.like exA4) chrom strand, x = 0) :=
  claim_C4_truncate_disjoint exA4 exB4 (fun x y => x + y) (by decide)

/-- Getitem of the whole current buffer of exA5 (as mode same does): the
segment end equals the buffer length, so the operand grows in place by
10000 positions, and with the normalize flag still on the fetched value is
the reads-per-million view, not the raw value. -/
theorem c5_getitem : exA5.getitem ⟨"chrA", 0, 1, "+"⟩ true = Except.ok ([1000000], c5grown) := by
  unfold GenomeArray.getitem GenomeArray.ensureFits
  norm_num [exA5, alookup, aset, resizeStrands, resizeBuf, bufferOf, readSlice,
    GenomeArray.sumVal, except_bind_ok, c5grown, c5buf]

/-- Setitem of the combined vector into the fresh result array of mode
same: the write also triggers growth of the result buffer. -/
theorem c5_setitem :
    (GenomeArray.like exA5).setitem ⟨"chrA", 0, 1, "+"⟩ (GValue.vector [2000000]) true =
      Except.ok exR5 := by
  unfold GenomeArray.setitem GenomeArray.ensureFits
  norm_num [GenomeArray.like, GenomeArray.create, exA5, GenomeArray.lengths, GenomeArray.strands,
    GenomeArray.setNormalize, GValue.rev, alookup, aset, resizeStrands, resizeBuf, bufferOf,
    writeVec, except_bind_ok, exR5, c5res]

/-- Full evaluation of mode-same apply_operation on the normalized
single-position operands exA5 and exB5. -/
theorem c5_main :
    exA5.apply_operation (Operand.array exB5) (fun x y => x + y) "same" =
      Except.ok ⟨exR5, c5grown, Operand.array c5grown⟩ := by
  unfold GenomeArray.apply_operation
  simp only [reduceIte]
  rw [if_pos (by decide : sameDims exA5 exB5 = true)]
  have hpairs : ((exA5.keys.map (fun c => exA5.strands.map (fun s => (c, s)))).flatten)
      = [("chrA", "+")] := rfl
  rw [hpairs]
  simp only [List.foldlM]
  have hL : (bufferOf exA5 "chrA" "+").length = 1 := rfl
  simp only [hL]
  simp only [Nat.cast_one]
  rw [c5_getitem]
  have hgb : exB5.getitem ⟨"chrA", 0, 1, "+"⟩ true = Except.ok ([1000000], c5grown) := c5_getitem
  rw [hgb]
  simp only [except_bind_ok]
  have hzip : List.zipWith (fun x y => x + y) [(1000000 : ℚ)] [1000000] = [2000000] := by
    norm_num
  rw [hzip, c5_setitem]
  rfl

/-- C5 refuted on the code: in mode same on two normalized equal
one-position arrays, apply_operation reads through getitem with the
normalize flag still on (the dense method warns but never clears the
flag), so the result position holds 2000000 (the combined per-million
views) instead of the raw sum 8; and the getitem and setitem calls grow
both operand buffers in place from length 1 to length 10001, so the
operands
are mutated.  The normalize flag is restored (it was never cleared) and
the warning is emitted, as the claim says. -/
theorem claim_C5_apply_operation_not_pure :
    exA5.normalize = true ∧ (bufferOf exA5 "chrA" "+").length = 1 ∧
    exA5.apply_operation (Operand.array exB5) (fun x y => x + y) "same" =
      Except.ok ⟨exR5, c5grown, Operand.array c5grown⟩ ∧
    (bufferOf c5grown "chrA" "+").length = 10001 ∧
    c5grown.normalize = true ∧
    (bufferOf exR5 "chrA" "+").getD 0 0 = 2000000 ∧
    (2000000 : ℚ) ≠ 4 + 4 := by
  refine ⟨rfl, rfl, c5_main, ?_, rfl, rfl, by norm_num⟩
  show ((4 : ℚ) :: List.replicate 10000 0).length = 10001
  rw [List.length_cons, List.length_replicate]

/-- C8 refuted on the code: two arrays whose only nonzero position is 2,
holding 5 and 7 (differing by 2, far beyond the 1e-10 tolerance), compare
equal under eq, because the value check fetches the half-open segment from
the least to the greatest nonzero index, which for a single nonzero
position is empty (and in general always excludes the greatest nonzero
index); the comparison is also one-sided (difference at most tol rather
than absolute difference). -/
theorem claim_C8_eq_tolerance_violated :
    GenomeArray.eqTol exA8 exB8 (1 / 10000000000) = true ∧
    bufferOf exA8 "chrA" "+" = [0, 0, 5] ∧
    bufferOf exB8 "chrA" "+" = [0, 0, 7] ∧
    ¬ (|(5 : ℚ) - 7| ≤ 1 / 10000000000) := by
  refine ⟨by decide, rfl, rfl, by norm_num⟩

/-- C10 refuted on the code: to_genome_array copies each chromosome
segment [0, length - 1), dropping the final position: for a BAM array
whose mapping rule reports value 1 at the last position (index 4 of the
length-5 chromosome) the materialized array holds 0 everywhere, although
the BAM array reports 1 there. -/
theorem claim_C10_to_genome_array_drops_last :
    (exBam10.to_genome_array).toOption.map (fun ga => bufferOf ga "chrA" "+") =
      some [0, 0, 0, 0, 0] ∧
    exBam10.getValues ⟨"chrA", 0, 5, "+"⟩ true = [0, 0, 0, 0, 1] ∧
    exBam10.getValues ⟨"chrA", 4, 5, "+"⟩ true = [1] ∧
    (0 : ℚ) ≠ 1 := by
  refine ⟨by decide, by decide, by decide, by decide⟩

/-- Unfolding of the bedGraph walk on an empty tail: the final line. -/
theorem bgAux_nil (x lastX : Nat) (lastVal : ℚ) :
    bgAux [] x lastX lastVal = [⟨lastX, x, lastVal⟩] := rfl

/-- Unfolding of one bedGraph walk step. -/
theorem bgAux_cons (v : ℚ) (rest : List ℚ) (x lastX : Nat) (lastVal : ℚ) :
    bgAux (v :: rest) x lastX lastVal =
      if v ≠ lastVal then ⟨lastX, x, lastVal⟩ :: bgAux rest (x + 1) x v
      else bgAux rest (x + 1) lastX lastVal := rfl

/-- Unfolding of the chain check on no lines. -/
theorem chainedFrom_nil (a b : Nat) : chainedFrom a [] b = (a == b) := rfl

/-- Unfolding of the chain check on one line. -/
theorem chainedFrom_cons (a : Nat) (l : BedLine) (L : List BedLine) (b : Nat) :
    chainedFrom a (l :: L) b = ((a == l.lstart) && chainedFrom l.lstop L b) := rfl

/-- Unfolding of the adjacent-difference check on two lines. -/
theorem adjacentDiffer_cons2 (l l2 : BedLine) (L : List BedLine) :
    adjacentDiffer (l :: l2 :: L) = (decide (l.val ≠ l2.val) && adjacentDiffer (l2 :: L)) := rfl

/-- The bedGraph walk always emits a first line starting at last_x with
value last_val. -/
theorem bgAux_shape : ∀ (vals : List ℚ) (x lastX : Nat) (lastVal : ℚ),
    ∃ e rest, bgAux vals x lastX lastVal = ⟨lastX, e, lastVal⟩ :: rest := by
  intro vals
  induction vals with
  | nil => intro x lastX lastVal; exact ⟨x, [], rfl⟩
  | cons v rest ih =>
    intro x lastX lastVal
    by_cases hv : v ≠ lastVal
    · exact ⟨x, bgAux rest (x + 1) x v, by rw [bgAux_cons, if_pos hv]⟩
    · obtain ⟨e, L, hL⟩ := ih (x + 1) lastX lastVal
      exact ⟨e, L, by rw [bgAux_cons, if_neg hv, hL]⟩

/-- The lines of the bedGraph walk chain from last_x to the end of the
walked range. -/
theorem bgAux_chain : ∀ (vals : List ℚ) (x lastX : Nat) (lastVal : ℚ),
    chainedFrom lastX (bgAux vals x lastX lastVal) (x + vals.length) = true := by
  intro vals
  induction vals with
  | nil =>
    intro x lastX lastVal
    rw [bgAux_nil, chainedFrom_cons, chainedFrom_nil]
    simp
  | cons v rest ih =>
    intro x lastX lastVal
    have harith : x + (v :: rest).length = (x + 1) + rest.length := by
      rw [List.length_cons]; omega
    rw [bgAux_cons, harith]
    by_cases hv : v ≠ lastVal
    · rw [if_pos hv, chainedFrom_cons]
      simp only [beq_self_eq_true, Bool.true_and]
      exact ih (x + 1) x v
    · rw [if_neg hv]
      exact ih (x + 1) lastX lastVal

/-- Consecutive lines of the bedGraph walk carry different values. -/
theorem bgAux_adjacent : ∀ (vals : List ℚ) (x lastX : Nat) (lastVal : ℚ),
    adjacentDiffer (bgAux vals x lastX lastVal) = true := by
  intro vals
  induction vals with
  | nil => intro x lastX lastVal; rw [bgAux_nil]; rfl
  | cons v rest ih =>
    intro x lastX lastVal
    rw [bgAux_cons]
    by_cases hv : v ≠ lastVal
    · rw [if_pos hv]
      obtain ⟨e, L, hL⟩ := bgAux_shape rest (x + 1) x v
      rw [hL, adjacentDiffer_cons2]
      have h2 := ih (x + 1) x v
      rw [hL] at h2
      rw [h2]
      simpa using (Ne.symm hv)
    · rw [if_neg hv]
      exact ih (x + 1) lastX lastVal

/-- A line is constant once every covered position holds its value. -/
theorem lineConstOn_of (buf : Buffer) (s e : Nat) (val : ℚ)
    (h : ∀ i, s ≤ i → i < e → buf.getD i 0 = val) :
    lineConstOn buf ⟨s, e, val⟩ = true := by
  unfold lineConstOn
  rw [List.all_eq_true]
  intro i hi
  obtain ⟨j, hj, hij⟩ := List.mem_range'.mp hi
  simp only [decide_eq_true_eq]
  have hil : i = s + j := by simpa using hij
  have hje : j < e - s := by simpa using hj
  exact h i (by omega) (by omega)

/-- Every line the bedGraph walk emits is constant over the buffer,
given that the walked values sit at the walked positions and the carried
run is constant so far. -/
theorem bgAux_const : ∀ (vals : List ℚ) (buf : Buffer) (x lastX : Nat) (lastVal : ℚ),
    (∀ j, j < vals.length → vals.getD j 0 = buf.getD (x + j) 0) →
    (∀ i, lastX ≤ i → i < x → buf.getD i 0 = lastVal) →
    (bgAux vals x lastX lastVal).all (lineConstOn buf) = true := by
  intro vals
  induction vals with
  | nil =>
    intro buf x lastX lastVal h1 h2
    rw [bgAux_nil]
    simp only [List.all_cons, List.all_nil, Bool.and_true]
    exact lineConstOn_of buf lastX x lastVal h2
  | cons v rest ih =>
    intro buf x lastX lastVal h1 h2
    have hvx : buf.getD x 0 = v := by
      have := h1 0 (by simp)
      simpa using this.symm
    rw [bgAux_cons]
    by_cases hv : v ≠ lastVal
    · rw [if_pos hv]
      simp only [List.all_cons, Bool.and_eq_true]
      constructor
      · exact lineConstOn_of buf lastX x lastVal h2
      · refine ih buf (x + 1) x v (fun j hj => ?_) (fun i hxi hix => ?_)
        · have := h1 (j + 1) (by simpa using Nat.succ_lt_succ hj)
          simpa [Nat.add_comm, Nat.add_assoc, Nat.add_left_comm] using this
        · have : i = x := by omega
          rw [this, hvx]
    · rw [if_neg hv]
      push_neg at hv
      refine ih buf (x + 1) lastX lastVal (fun j hj => ?_) (fun i hxi hix => ?_)
      · have := h1 (j + 1) (by simpa using Nat.succ_lt_succ hj)
        simpa [Nat.add_comm, Nat.add_assoc, Nat.add_left_comm] using this
      · by_cases hix2 : i < x
        · exact h2 i hxi hix2
        · have : i = x := by omega
          rw [this, hvx, hv]

/-- Membership in the nonzero index list. -/
theorem mem_nonzeroIdx (buf : Buffer) (i : Nat) :
    i ∈ nonzeroIdx buf ↔ i < buf.length ∧ buf.getD i 0 ≠ 0 := by
  unfold nonzeroIdx
  simp [List.mem_filter, List.mem_range]

/-- The nonzero index list is strictly ascending. -/
theorem nonzeroIdx_pairwise (buf : Buffer) : (nonzeroIdx buf).Pairwise (· < ·) :=
  List.Pairwise.sublist (List.filter_sublist _) (List.pairwise_lt_range _)

/-- A buffer with positive sum has a nonzero position. -/
theorem nonzeroIdx_ne_nil (buf : Buffer) (h : buf.sum > 0) : nonzeroIdx buf ≠ [] := by
  intro hnil
  have hzero : ∀ x ∈ buf, x = 0 := by
    intro x hx
    obtain ⟨i, hi, hxi⟩ := List.mem_iff_getElem.mp hx
    by_contra hne
    have hmem : i ∈ nonzeroIdx buf := (mem_nonzeroIdx buf i).mpr
      ⟨hi, by rw [List.getD_eq_getElem _ _ hi, hxi]; exact hne⟩
    rw [hnil] at hmem
    exact absurd hmem (List.not_mem_nil i)
  have hs : buf.sum = 0 := List.sum_eq_zero hzero
  rw [hs] at h
  exact lt_irrefl 0 h

/-- The head of a strictly ascending list is its least member. -/
theorem sorted_headD_le (l : List Nat) (hp : l.Pairwise (· < ·)) (i : Nat) (hi : i ∈ l) :
    l.headD 0 ≤ i := by
  cases l with
  | nil => cases hi
  | cons a rest =>
    rcases List.mem_cons.mp hi with rfl | hmem
    · exact Nat.le_refl i
    · exact Nat.le_of_lt ((List.pairwise_cons.mp hp).1 i hmem)

/-- The last entry of a strictly ascending list bounds every member. -/
theorem sorted_le_getLastD : ∀ (l : List Nat) (d : Nat), l.Pairwise (· < ·) →
    ∀ i ∈ l, i ≤ l.getLastD d := by
  intro l
  induction l with
  | nil => intro d hp i hi; cases hi
  | cons a rest ih =>
    intro d hp i hi
    cases rest with
    | nil =>
      have : i = a := by simpa using hi
      simp [this]
    | cons b t =>
      rw [List.getLastD_cons]
      have hp2 := (List.pairwise_cons.mp hp).2
      rcases List.mem_cons.mp hi with rfl | hmem
      · have hb : b ≤ (b :: t).getLastD i := ih i hp2 b (by simp)
        have hab : i < b := (List.pairwise_cons.mp hp).1 b (by simp)
        omega
      · exact ih a hp2 i hmem

/-- The last entry of a nonempty list is a member. -/
theorem getLastD_mem_of_ne_nil (l : List Nat) (d : Nat) (h : l ≠ []) : l.getLastD d ∈ l := by
  cases l with
  | nil => exact absurd rfl h
  | cons a rest =>
    rw [List.getLastD_cons]
    exact List.getLastD_mem_cons rest a

/-- The head of a nonempty list is a member. -/
theorem headD_mem_of_ne_nil (l : List Nat) (d : Nat) (h : l ≠ []) : l.headD d ∈ l := by
  cases l with
  | nil => exact absurd rfl h
  | cons a rest => simp

/-- Characterization of the dense to_bedgraph data lines for a buffer
with positive sum: the lines partition the range from position 0 through
the greatest nonzero position into contiguous maximal runs of equal value
(zero-valued runs included), each line constant over the buffer, with
consecutive lines differing in value. -/
theorem bedgraphLines_spec (buf : Buffer) (hpos : buf.sum > 0) :
    chainedFrom 0 (bedgraphLines buf) (nzLast buf + 1) = true ∧
    (bedgraphLines buf).all (lineConstOn buf) = true ∧
    adjacentDiffer (bedgraphLines buf) = true := by
  have hne := nonzeroIdx_ne_nil buf hpos
  have hp := nonzeroIdx_pairwise buf
  have hmM : (nonzeroIdx buf).headD 0 ≤ (nonzeroIdx buf).getLastD 0 :=
    sorted_le_getLastD (nonzeroIdx buf) 0 hp ((nonzeroIdx buf).headD 0)
      (headD_mem_of_ne_nil (nonzeroIdx buf) 0 hne)
  have hMmem : (nonzeroIdx buf).getLastD 0 ∈ nonzeroIdx buf :=
    getLastD_mem_of_ne_nil (nonzeroIdx buf) 0 hne
  have hMlen : (nonzeroIdx buf).getLastD 0 < buf.length :=
    ((mem_nonzeroIdx buf _).mp hMmem).1
  have hlines : bedgraphLines buf =
      bgAux (readSlice buf ((nonzeroIdx buf).headD 0) ((nonzeroIdx buf).getLastD 0 + 1))
        ((nonzeroIdx buf).headD 0) 0 0 := by
    unfold bedgraphLines
    rw [if_pos hpos]
  have hslen : (readSlice buf ((nonzeroIdx buf).headD 0) ((nonzeroIdx buf).getLastD 0 + 1)).length
      = (nonzeroIdx buf).getLastD 0 + 1 - (nonzeroIdx buf).headD 0 :=
    readSlice_length buf _ _ (by omega)
  refine ⟨?_, ?_, ?_⟩
  · rw [hlines]
    have hch := bgAux_chain
      (readSlice buf ((nonzeroIdx buf).headD 0) ((nonzeroIdx buf).getLastD 0 + 1))
      ((nonzeroIdx buf).headD 0) 0 0
    rw [hslen] at hch
    have harith : (nonzeroIdx buf).headD 0 +
        ((nonzeroIdx buf).getLastD 0 + 1 - (nonzeroIdx buf).headD 0) =
        (nonzeroIdx buf).getLastD 0 + 1 := by omega
    rw [harith] at hch
    exact hch
  · rw [hlines]
    refine bgAux_const _ buf ((nonzeroIdx buf).headD 0) 0 0 (fun j hj => ?_)
      (fun i h0 him => ?_)
    · rw [hslen] at hj
      exact readSlice_getD buf _ _ j (by omega) (by omega)
    · by_contra hnz2
      have hilen : i < buf.length := by
        by_contra hge
        push_neg at hge
        rw [List.getD_eq_default _ _ hge] at hnz2
        exact hnz2 rfl
      have hmemi : i ∈ nonzeroIdx buf := (mem_nonzeroIdx buf i).mpr ⟨hilen, hnz2⟩
      have := sorted_headD_le (nonzeroIdx buf) hp i hmemi
      omega
  · rw [hlines]
    exact bgAux_adjacent _ ((nonzeroIdx buf).headD 0) 0 0

/-- Unfolding of the BAM window walk on an empty tail. -/
theorem bamAux_nil (wend : Nat) (x gsx : Nat) (lastVal : ℚ) :
    bamAux wend [] x gsx lastVal =
      if lastVal > 0 then [⟨gsx, wend, lastVal⟩] else [] := rfl

/-- Unfolding of one BAM window walk step. -/
theorem bamAux_cons (wend : Nat) (v : ℚ) (rest : List ℚ) (x gsx : Nat) (lastVal : ℚ) :
    bamAux wend (v :: rest) x gsx lastVal =
      if v ≠ lastVal then
        (if lastVal > 0 then [⟨gsx, x, lastVal⟩] else []) ++ bamAux wend rest (x + 1) x v
      else bamAux wend rest (x + 1) gsx lastVal := rfl

/-- A window line is a maximal positive run once its parts are checked. -/
theorem bamLineOK_of (wstart wend : Nat) (f : Nat → ℚ) (s e : Nat) (val : ℚ)
    (hval : 0 < val)
    (hconst : ∀ i, s ≤ i → i < e → f i = val)
    (hleft : s = wstart ∨ f (s - 1) ≠ val)
    (hright : e = wend ∨ f e ≠ val) :
    bamLineOK wstart wend f ⟨s, e, val⟩ = true := by
  unfold bamLineOK
  simp only [Bool.and_eq_true, decide_eq_true_eq, Bool.or_eq_true, beq_iff_eq]
  refine ⟨⟨⟨hval, ?_⟩, ?_⟩, ?_⟩
  · rw [List.all_eq_true]
    intro i hi
    obtain ⟨j, hj, hij⟩ := List.mem_range'.mp hi
    have hil : i = s + j := by simpa using hij
    have hje : j < e - s := by simpa using hj
    simp only [decide_eq_true_eq]
    exact hconst i (by omega) (by omega)
  · exact hleft
  · exact hright

/-- Every line the BAM window walk emits is a maximal positive-value run
within the window, given the walk invariants. -/
theorem bamAux_ok : ∀ (vals : List ℚ) (wstart wend : Nat) (f : Nat → ℚ)
    (x gsx : Nat) (lastVal : ℚ),
    (∀ j, j < vals.length → vals.getD j 0 = f (x + j)) →
    (∀ i, gsx ≤ i → i < x → f i = lastVal) →
    (gsx = wstart ∨ f (gsx - 1) ≠ lastVal) →
    gsx < x →
    wend = x + vals.length →
    (bamAux wend vals x gsx lastVal).all (bamLineOK wstart wend f) = true := by
  intro vals
  induction vals with
  | nil =>
    intro wstart wend f x gsx lastVal h1 h2 hleft hgx hwend
    rw [bamAux_nil]
    by_cases hv : lastVal > 0
    · rw [if_pos hv]
      simp only [List.all_cons, List.all_nil, Bool.and_true]
      refine bamLineOK_of wstart wend f gsx wend lastVal hv (fun i hi hiw => ?_) hleft
        (Or.inl rfl)
      have hwx : wend = x := by simpa using hwend
      exact h2 i hi (by omega)
    · rw [if_neg hv]
      rfl
  | cons v rest ih =>
    intro wstart wend f x gsx lastVal h1 h2 hleft hgx hwend
    have hvx : f x = v := by
      have := h1 0 (by simp)
      simpa using this.symm
    have hwend2 : wend = (x + 1) + rest.length := by
      rw [hwend, List.length_cons]; omega
    have h1r : ∀ j, j < rest.length → rest.getD j 0 = f (x + 1 + j) := by
      intro j hj
      have := h1 (j + 1) (by simpa using Nat.succ_lt_succ hj)
      simpa [Nat.add_comm, Nat.add_assoc, Nat.add_left_comm] using this
    rw [bamAux_cons]
    by_cases hv : v ≠ lastVal
    · rw [if_pos hv]
      rw [List.all_append, Bool.and_eq_true]
      constructor
      · by_cases hpos : lastVal > 0
        · rw [if_pos hpos]
          simp only [List.all_cons, List.all_nil, Bool.and_true]
          refine bamLineOK_of wstart wend f gsx x lastVal hpos
            (fun i hi hix => h2 i hi hix) hleft (Or.inr ?_)
          rw [hvx]
          exact fun h => hv (by rw [h])
        · rw [if_neg hpos]
          rfl
      · refine ih wstart wend f (x + 1) x v h1r (fun i hxi hix => ?_) (Or.inr ?_)
          (by omega) hwend2
        · have : i = x := by omega
          rw [this, hvx]
        · have hfx : f (x - 1) = lastVal := h2 (x - 1) (by omega) (by omega)
          rw [hfx]
          exact Ne.symm hv
    · rw [if_neg hv]
      push_neg at hv
      refine ih wstart wend f (x + 1) gsx lastVal h1r (fun i hxi hix => ?_) hleft
        (by omega) hwend2
      by_cases hix2 : i < x
      · exact h2 i hxi hix2
      · have : i = x := by omega
        rw [this, hvx, hv]

/-- Characterization of the BAM-backed to_bedgraph data lines of one
window: every line is a maximal run of equal positive value within the
window; zero or negative runs are omitted. -/
theorem bamBedgraphWindowLines_spec (wstart : Nat) (counts : List ℚ) :
    (bamBedgraphWindowLines wstart counts).all
      (bamLineOK wstart (wstart + counts.length) (fun i => counts.getD (i - wstart) 0))
      = true := by
  unfold bamBedgraphWindowLines
  by_cases hpos : counts.sum > 0
  · rw [if_pos hpos]
    cases counts with
    | nil => rfl
    | cons c0 rest =>
      refine bamAux_ok rest wstart (wstart + (c0 :: rest).length)
        (fun i => (c0 :: rest).getD (i - wstart) 0) (wstart + 1) wstart c0
        (fun j hj => ?_) (fun i hwi hiw => ?_) (Or.inl rfl) (by omega)
        (by rw [List.length_cons]; omega)
      · show rest.getD j 0 = (c0 :: rest).getD (wstart + 1 + j - wstart) 0
        have harith : wstart + 1 + j - wstart = j + 1 := by omega
        rw [harith, List.getD_cons_succ]
      · show (c0 :: rest).getD (i - wstart) 0 = c0
        have harith : i - wstart = 0 := by omega
        rw [harith, List.getD_cons_zero]
  · rw [if_neg hpos]
    cases counts <;> rfl

/-- Counterexample for C9: the dense to_bedgraph writes a zero-valued data
line: for a buffer holding 1 at position 2 and zero before, the first line
written is (0, 2, 0), a run whose value is zero. -/
theorem claim_C9_zero_run_written_cex :
    bedgraphLines [0, 0, 1] = [⟨0, 2, 0⟩, ⟨2, 3, 1⟩] ∧
    (⟨0, 2, 0⟩ : BedLine) ∈ bedgraphLines [0, 0, 1] ∧ (⟨0, 2, 0⟩ : BedLine).val = 0 := by
  refine ⟨by decide, by decide, rfl⟩

/-- C9 amended: in the dense GenomeArray to_bedgraph, for every buffer
with positive sum the data lines are a contiguous partition of positions
0 through the greatest nonzero position into maximal runs of equal value,
zero-valued runs included (in particular a leading zero-valued line up to
the first nonzero position, empty when position 0 is nonzero); in the
BAM-backed to_bedgraph every data line is a maximal run of adjacent
positions of equal positive value within its processing window (runs are
merged only within a window), and no zero-valued line is written there. -/
theorem claim_C9_bedgraph_runs (buf : Buffer) (hpos : buf.sum > 0)
    (wstart : Nat) (counts : List ℚ) :
    chainedFrom 0 (bedgraphLines buf) (nzLast buf + 1) = true ∧
    (bedgraphLines buf).all (lineConstOn buf) = true ∧
    adjacentDiffer (bedgraphLines buf) = true ∧
    (bamBedgraphWindowLines wstart counts).all
      (bamLineOK wstart (wstart + counts.length) (fun i => counts.getD (i - wstart) 0))
      = true :=
  ⟨(bedgraphLines_spec buf hpos).1, (bedgraphLines_spec buf hpos).2.1,
   (bedgraphLines_spec buf hpos).2.2, bamBedgraphWindowLines_spec wstart counts⟩

/-- Witness for C9 amended on a buffer with a zero gap and a window whose
counts hold a gap as well. -/
theorem claim_C9_bedgraph_runs_witness :
    ([0, 2, 2] : Buffer).sum > 0 ∧
    (chainedFrom 0 (bedgraphLines [0, 2, 2]) (nzLast [0, 2, 2] + 1) = true ∧
    (bedgraphLines [0, 2, 2]).all (lineConstOn [0, 2, 2]) = true ∧
    adjacentDiffer (bedgraphLines [0, 2, 2]) = true ∧
    (bamBedgraphWindowLines 5 [1, 0, 3]).all
      (bamLineOK 5 (5 + ([1, 0, 3] : List ℚ).length)
        (fun i => ([1, 0, 3] : List ℚ).getD (i - 5) 0)) = true) :=
  ⟨by decide, claim_C9_bedgraph_runs [0, 2, 2] (by decide) 5 [1, 0, 3]⟩
